import Mathlib

set_option maxHeartbeats 1000000

/-!
Verification development for the OpenMOC Geometry core (src/src/Geometry.h):
the FSR identity registry, the eager flat-source-region enumeration pass, the
ray-segmentation engine, and the spatial navigator.  The data model follows the
member declarations of the Geometry class; member-function bodies are not part
of the repository snapshot, so each operation is modelled from the
specification (doc comments say so explicitly) over the declared state.
-/

/-- A 3-D coordinate, the payload of the C++ Point class.  Coordinates are
modelled exactly over ℚ (the algorithmic claims verified here are about the
algebraic structure of the computations, not floating-point rounding). -/
structure Point where
  x : ℚ
  y : ℚ
  z : ℚ
deriving DecidableEq

/-- The fsr_data struct of Geometry.h: an FSR record holding the FSR id, a
characteristic point inside the FSR and the numerical centroid.  Note that the
record stores no copy of the fingerprint string itself.  Ids are allocated
consecutively from 0, so the C++ int id is modelled as ℕ. -/
structure fsr_data where
  fsr_id : Nat
  point : Point
  centroid : Point
deriving DecidableEq

/-- The Registry-relevant mutable state of the Geometry class, exactly the
member declarations of Geometry.h: the total FSR count, the map
_FSR_keys_map from std::size_t fingerprint-hashes to fsr_data records
(std::unordered_map, modelled as an association list with pairwise distinct
keys maintained by the operations), the vector _FSRs_to_keys of fingerprint
hashes indexed by FSR id and the vector _FSRs_to_material_IDs of material ids
indexed by FSR id. -/
structure GeometryState where
  num_FSRs : Nat
  FSR_keys_map : List (Nat × fsr_data)
  FSRs_to_keys : List Nat
  FSRs_to_material_IDs : List Int
deriving DecidableEq

/-- The freshly constructed Geometry: zero FSRs, empty containers. -/
def emptyGeometry : GeometryState :=
  { num_FSRs := 0, FSR_keys_map := [], FSRs_to_keys := [], FSRs_to_material_IDs := [] }

/-- One region visit during enumeration or segmentation, abstracting the
LocalCoords chain handed to findFSRId: the fingerprint string produced by
getFSRKey, the material id of the leaf cell and the characteristic point. -/
structure RegionQuery where
  key : String
  material : Int
  point : Point
deriving DecidableEq

/-- Lookup in _FSR_keys_map by fingerprint hash (std::unordered_map::find). -/
def fsrMapFind : List (Nat × fsr_data) → Nat → Option fsr_data
  | [], _ => none
  | (k, d) :: rest, h => if h = k then some d else fsrMapFind rest h

/-- The list of fingerprint hashes keying _FSR_keys_map. -/
def mapKeys (g : GeometryState) : List Nat :=
  g.FSR_keys_map.map (fun e => e.1)

/-- The list of FSR ids stored in the records of _FSR_keys_map. -/
def assignedIds (g : GeometryState) : List Nat :=
  g.FSR_keys_map.map (fun e => e.2.fsr_id)

/-- Modelled from the spec: the body of Geometry::findFSRId is not in the
repository snapshot (Geometry.h declares it only).  Per spec §4.3 (resolve),
it returns the existing id when the fingerprint is present and, during the
eager enumeration pass, allocates the next unused id and inserts a new record
when absent, keeping the two id-indexed vectors in sync.  Per the declarations
of Geometry.h the lookup structure _FSR_keys_map is keyed by the std::size_t
hash of the fingerprint string and the stored fsr_data record holds no copy of
the fingerprint, so presence is decided by hash equality alone; the external
hash function (std::hash over std::string) is a parameter. -/
def findFSRId (hash : String → Nat) (g : GeometryState) (r : RegionQuery) :
    Nat × GeometryState :=
  match fsrMapFind g.FSR_keys_map (hash r.key) with
  | some d => (d.fsr_id, g)
  | none =>
      (g.num_FSRs,
        { num_FSRs := g.num_FSRs + 1
          FSR_keys_map :=
            (hash r.key, { fsr_id := g.num_FSRs, point := r.point, centroid := r.point })
              :: g.FSR_keys_map
          FSRs_to_keys := g.FSRs_to_keys ++ [hash r.key]
          FSRs_to_material_IDs := g.FSRs_to_material_IDs ++ [r.material] })

/-- Lookup-only resolution of a fingerprint to its FSR id, as used after the
Registry is finalized (spec §4.2/§4.3): no allocation, just the hash lookup. -/
def lookupFSRId (hash : String → Nat) (g : GeometryState) (key : String) : Option Nat :=
  (fsrMapFind g.FSR_keys_map (hash key)).map (fun d => d.fsr_id)

/-- Modelled from the spec: the body of Geometry::initializeFlatSourceRegions
is not in the repository snapshot.  Per spec §4.2, it is an eager enumeration
pass over the whole CSG tree that pre-registers every region through the
resolve operation before any track is segmentized.  The CSG traversal itself
is performed by the external CSG primitives (out of scope per the spec), so it
is abstracted as the list of region visits in traversal order. -/
def initFlatSourceRegions (hash : String → Nat) (regions : List RegionQuery) :
    GeometryState :=
  regions.foldl (fun g r => (findFSRId hash g r).2) emptyGeometry

/-- Accessor Geometry::getNumFSRs. -/
def getNumFSRs (g : GeometryState) : Nat :=
  g.num_FSRs

/-- Accessor Geometry::getFSRsToKeys; per Geometry.h it returns
std::vector by value, i.e. the caller receives a copy. -/
def getFSRsToKeys (g : GeometryState) : List Nat :=
  g.FSRs_to_keys

/-- Accessor Geometry::getFSRsToMaterialIDs; by-value return per Geometry.h. -/
def getFSRsToMaterialIDs (g : GeometryState) : List Int :=
  g.FSRs_to_material_IDs

/-- Accessor Geometry::getFSRKeysMap; by-value return per Geometry.h. -/
def getFSRKeysMap (g : GeometryState) : List (Nat × fsr_data) :=
  g.FSR_keys_map

/-- A caller session against the accessors: the caller fetches the three
containers and applies arbitrary mutations f1, f2, f3 to its copies.  The
accessors return by value (their declared types in Geometry.h are plain
std::vector / std::unordered_map, not references), so the Geometry operand
passes through untouched; the session returns the caller's mutated copies
alongside the Geometry. -/
def accessorSession (g : GeometryState) (f1 : List Nat → List Nat)
    (f2 : List Int → List Int) (f3 : List (Nat × fsr_data) → List (Nat × fsr_data)) :
    (List Nat × List Int × List (Nat × fsr_data)) × GeometryState :=
  ((f1 (getFSRsToKeys g), f2 (getFSRsToMaterialIDs g), f3 (getFSRKeysMap g)), g)

/-- Modelled from the spec: the bodies of Geometry::setFSRsToKeys,
Geometry::setFSRsToMaterialIDs, Geometry::setFSRKeysMap and
Geometry::setNumFSRs are not in the repository snapshot.  Spec §4.3 describes
them jointly as an atomic bulk Registry replacement whose contract is that the
supplied structures have matching cardinality with ids contiguous from 0;
otherwise the call fails (ConsistencyError) and leaves the prior state
untouched.  The combined operation is modelled here; it returns the error flag
together with the resulting Geometry state. -/
def setFSRMapsBulk (g : GeometryState) (m : List (Nat × fsr_data))
    (keys : List Nat) (mats : List Int) : Except String Unit × GeometryState :=
  if keys.length = mats.length ∧ m.length = keys.length ∧
      List.Perm (m.map fun e => e.2.fsr_id) (List.range keys.length) then
    (Except.ok (),
      { num_FSRs := keys.length, FSR_keys_map := m,
        FSRs_to_keys := keys, FSRs_to_material_IDs := mats })
  else
    (Except.error "ConsistencyError: bulk Registry replacement with mismatched cardinalities", g)

/-- One boundary-to-boundary chord of a track as produced by the Navigator
walk: the fingerprint of the leaf region crossed and the Euclidean distance
between the consecutive boundary hit points. -/
structure Chord where
  key : String
  length : ℚ
deriving DecidableEq

/-- A track segment as appended by segmentation (spec §3): its length, its
FSR id and its material id. -/
structure TrackSegment where
  length : ℚ
  fsr_id : Nat
  material_id : Int
deriving DecidableEq

/-- Modelled from the spec: when a raw boundary-to-boundary distance exceeds
the configured maximum segment length, it is split into the smallest number of
equal sub-segments each at or under the maximum (spec §4.2). -/
def splitSegment (max_seg_length : ℚ) (d : ℚ) : List ℚ :=
  List.replicate (Int.toNat ⌈d / max_seg_length⌉) (d / (Int.toNat ⌈d / max_seg_length⌉ : ℚ))

/-- Modelled from the spec: sub-segments shorter than the configured minimum
segment length are discarded, not merged (spec §4.2). -/
def filterMin (min_seg_length : ℚ) (ls : List ℚ) : List ℚ :=
  ls.filter (fun l => decide (min_seg_length ≤ l))

/-- Number of sub-segments the degenerate-segment filter discards over the
chords of one track. -/
def discardedCount (min_seg_length max_seg_length : ℚ) (chords : List Chord) : Nat :=
  (chords.map
    (fun c => (splitSegment max_seg_length c.length).countP
      (fun l => decide (l < min_seg_length)))).sum

/-- Modelled from the spec: the per-chord loop of Geometry::segmentize2D /
segmentize3D (bodies not in the repository snapshot).  For each chord it
resolves the region fingerprint with a lookup-only Registry query — a fatal
ConsistencyError if the fingerprint is not registered — splits the raw
distance under the maximum segment length, discards degenerate sub-segments
under the minimum, and emits the segments tagged with the FSR id and the
material id from _FSRs_to_material_IDs.  The Geometry state is threaded
through and returned so that the frame behaviour is part of the model. -/
def segmentizeLoop (hash : String → Nat) (minL maxL : ℚ) :
    GeometryState → List Chord → Except String (List TrackSegment) × GeometryState
  | g, [] => (Except.ok [], g)
  | g, c :: rest =>
    match lookupFSRId hash g c.key with
    | none => (Except.error "ConsistencyError: segment fingerprint not registered", g)
    | some i =>
      match segmentizeLoop hash minL maxL g rest with
      | (Except.ok ss, g2) =>
          (Except.ok
            (((filterMin minL (splitSegment maxL c.length)).map
              (fun l =>
                { length := l, fsr_id := i,
                  material_id := g.FSRs_to_material_IDs.getD i 0 })) ++ ss), g2)
      | (Except.error e, g2) => (Except.error e, g2)

/-- Modelled from the spec: Geometry::segmentize2D (body not in the repository
snapshot).  The Navigator walk is abstracted as the chord list and the
exit-geometry signal; after the per-chord loop, the loop-termination contract
of spec §4.2 is checked: the walk must have ended on the exit-geometry signal
or with the accumulated length equal to the track's declared total length,
otherwise the mismatch is a fatal ConsistencyError. -/
def segmentize2D (hash : String → Nat) (minL maxL : ℚ) (g : GeometryState)
    (track_length : ℚ) (chords : List Chord) (ends_by_exit : Bool) :
    Except String (List TrackSegment) × GeometryState :=
  match segmentizeLoop hash minL maxL g chords with
  | (Except.ok segs, g2) =>
      if ends_by_exit = true ∨ (chords.map Chord.length).sum = track_length then
        (Except.ok segs, g2)
      else
        (Except.error "ConsistencyError: accumulated track length mismatch", g2)
  | r => r

/-- Modelled from the spec: Geometry::segmentize3D runs the identical
algorithm generalized to a full 3-D direction (spec §4.2); at this level of
abstraction the polar angle only affects the externally computed chords. -/
def segmentize3D (hash : String → Nat) (minL maxL : ℚ) (g : GeometryState)
    (track_length : ℚ) (chords : List Chord) (ends_by_exit : Bool) :
    Except String (List TrackSegment) × GeometryState :=
  segmentize2D hash minL maxL g track_length chords ends_by_exit

/-- The root bounding box of the Geometry. -/
structure BoundingBox where
  min_x : ℚ
  max_x : ℚ
  min_y : ℚ
  max_y : ℚ
  min_z : ℚ
  max_z : ℚ
deriving DecidableEq

/-- Modelled from the spec: Geometry::withinBounds (body not in the repository
snapshot) — whether a point lies inside the root bounding box. -/
def withinBounds (bb : BoundingBox) (p : Point) : Bool :=
  decide (bb.min_x ≤ p.x) && decide (p.x ≤ bb.max_x) &&
  decide (bb.min_y ≤ p.y) && decide (p.y ≤ bb.max_y) &&
  decide (bb.min_z ≤ p.z) && decide (p.z ≤ bb.max_z)

/-- A leaf cell of the CSG model as seen by the Navigator: its id and its
point-containment test.  The containment test itself belongs to the external
CSG primitives (out of scope per the spec). -/
structure CellDef where
  id : Nat
  contains : Point → Bool

/-- Straight-line advance of a point by a distance along a direction vector. -/
def advancePoint (p : Point) (d : Point) (dist : ℚ) : Point :=
  { x := p.x + dist * d.x, y := p.y + dist * d.y, z := p.z + dist * d.z }

/-- Modelled from the spec: Geometry::findCellContainingCoords (body not in
the repository snapshot) — locate(point) descends the CSG tree to the leaf
region containing the point and fails with a BoundsError if the point lies
outside the root's defined region (spec §4.1). -/
def findCellContainingCoords (bb : BoundingBox) (cells : List CellDef) (p : Point) :
    Except String Nat :=
  if withinBounds bb p = true then
    match cells.find? (fun c => c.contains p) with
    | some c => Except.ok c.id
    | none => Except.error "BoundsError: no cell contains the point"
  else
    Except.error "BoundsError: point outside the root region"

/-- Modelled from the spec: Geometry::findNextCell (body not in the repository
snapshot) — advancePastBoundary moves the position past the nearest exit
boundary along the direction and re-locates; when the new position falls
outside the root bounding box it signals exit (none) rather than failing
(spec §4.1).  The nearest-boundary distance computed by the external CSG
primitives is the parameter dist. -/
def findNextCell (bb : BoundingBox) (cells : List CellDef) (p : Point) (d : Point)
    (dist : ℚ) : Option Nat :=
  if withinBounds bb (advancePoint p d dist) = true then
    (cells.find? (fun c => c.contains (advancePoint p d dist))).map (fun c => c.id)
  else
    none

/-- Modelled from the spec: Geometry::findFirstCell (body not in the
repository snapshot) — locateAlongDirection classifies the point itself when
it lies in exactly one leaf region; only when the point lies on a shared
boundary (not in exactly one region) does the direction participate, by
classifying the point after an infinitesimal step eps along the direction
vector d (spec §4.1).  The direction vector determined by the azimuthal and
polar angles is abstracted as d, the tiny-move constant as eps. -/
def findFirstCell (cells : List CellDef) (p : Point) (d : Point) (eps : ℚ) :
    Option Nat :=
  match cells.filter (fun c => c.contains p) with
  | [c] => some c.id
  | _ => (cells.find? (fun c => c.contains (advancePoint p d eps))).map (fun c => c.id)

/-- A face of the root bounding box. -/
inductive Face where
  | xMin
  | xMax
  | yMin
  | yMax
  | zMin
  | zMax
deriving DecidableEq

/-- Mirror the component of a direction normal to the crossed face. -/
def reflectDirection (f : Face) (d : Point) : Point :=
  match f with
  | Face.xMin => { x := -d.x, y := d.y, z := d.z }
  | Face.xMax => { x := -d.x, y := d.y, z := d.z }
  | Face.yMin => { x := d.x, y := -d.y, z := d.z }
  | Face.yMax => { x := d.x, y := -d.y, z := d.z }
  | Face.zMin => { x := d.x, y := d.y, z := -d.z }
  | Face.zMax => { x := d.x, y := d.y, z := -d.z }

/-- Modelled from the spec: the caller's boundary-condition step after the
exit signal (spec §4.1): a vacuum boundary terminates the track (none), a
reflective boundary mirrors the direction component normal to the crossed
face and continues.  Per the comments in Geometry.h, a boundaryType of false
is vacuum and true is reflective. -/
def applyBoundaryCondition (bc : Bool) (f : Face) (d : Point) : Option Point :=
  if bc = true then some (reflectDirection f d) else none

/-- Well-formedness of the Registry (spec §3 invariant): both id-indexed
vectors and the fingerprint map have length num_FSRs, the assigned ids are
exactly 0, …, num_FSRs-1 with no gaps or duplicates, the map keys are
pairwise distinct (each registered fingerprint hash maps to exactly one
record), and the id→fingerprint vector inverts the map (each id recovers
exactly the fingerprint hash registered for it). -/
structure WellFormed (g : GeometryState) : Prop where
  keys_len : g.FSRs_to_keys.length = g.num_FSRs
  mats_len : g.FSRs_to_material_IDs.length = g.num_FSRs
  map_len : g.FSR_keys_map.length = g.num_FSRs
  ids_range : List.Perm (assignedIds g) (List.range g.num_FSRs)
  keys_nodup : (mapKeys g).Nodup
  id_to_key : ∀ k d, (k, d) ∈ g.FSR_keys_map → g.FSRs_to_keys[d.fsr_id]? = some k

/-! Helper lemmas about the fingerprint map. -/

theorem fsrMapFind_eq_none_iff (m : List (Nat × fsr_data)) (h : Nat) :
    fsrMapFind m h = none ↔ h ∉ m.map (fun e => e.1) := by
  induction m with
  | nil => simp [fsrMapFind]
  | cons e rest ih =>
      obtain ⟨k, d⟩ := e
      by_cases hk : h = k
      · subst hk
        simp [fsrMapFind]
      · simp [fsrMapFind, hk, ih]

theorem fsrMapFind_eq_some_mem {m : List (Nat × fsr_data)} {h : Nat} {d : fsr_data}
    (hf : fsrMapFind m h = some d) : (h, d) ∈ m := by
  induction m with
  | nil => simp [fsrMapFind] at hf
  | cons e rest ih =>
      obtain ⟨k, d0⟩ := e
      by_cases hk : h = k
      · subst hk
        simp [fsrMapFind] at hf
        subst hf
        exact List.mem_cons_self _ _
      · simp [fsrMapFind, hk] at hf
        exact List.mem_cons_of_mem _ (ih hf)

theorem fsrMapFind_isSome_of_mem_keys {m : List (Nat × fsr_data)} {h : Nat}
    (hm : h ∈ m.map (fun e => e.1)) : ∃ d, fsrMapFind m h = some d := by
  cases hf : fsrMapFind m h with
  | none => exact absurd hm ((fsrMapFind_eq_none_iff m h).mp hf)
  | some d => exact ⟨d, rfl⟩

/-! Helper lemmas: the enumeration pass preserves Registry well-formedness. -/

theorem wellFormed_empty : WellFormed emptyGeometry := by
  refine ⟨?_, ?_, ?_, ?_, ?_, ?_⟩ <;> simp [emptyGeometry, assignedIds, mapKeys]

theorem wellFormed_findFSRId (hash : String → Nat) (g : GeometryState) (r : RegionQuery)
    (hw : WellFormed g) : WellFormed (findFSRId hash g r).2 := by
  cases hf : fsrMapFind g.FSR_keys_map (hash r.key) with
  | some d => simpa [findFSRId, hf] using hw
  | none =>
      have hnotin : hash r.key ∉ mapKeys g := (fsrMapFind_eq_none_iff _ _).mp hf
      refine ⟨?_, ?_, ?_, ?_, ?_, ?_⟩
      · simp [findFSRId, hf, hw.keys_len]
      · simp [findFSRId, hf, hw.mats_len]
      · simp [findFSRId, hf, hw.map_len]
      · simp only [findFSRId, hf, assignedIds, List.map_cons]
        rw [List.range_succ]
        exact (hw.ids_range.cons g.num_FSRs).trans (List.perm_append_singleton _ _).symm
      · simp only [findFSRId, hf, mapKeys, List.map_cons]
        exact List.nodup_cons.mpr ⟨by simpa [mapKeys] using hnotin, hw.keys_nodup⟩
      · intro k d hmem
        simp only [findFSRId, hf] at hmem ⊢
        rcases List.mem_cons.mp hmem with heq | hmem2
        · cases heq
          have hlen : g.FSRs_to_keys.length = g.num_FSRs := hw.keys_len
          simp [List.getElem?_append_right, hlen]
        · have hid : d.fsr_id ∈ assignedIds g := by
            have := List.mem_map_of_mem (fun e => e.2.fsr_id) hmem2
            simpa [assignedIds] using this
          have hlt : d.fsr_id < g.num_FSRs :=
            List.mem_range.mp (hw.ids_range.mem_iff.mp hid)
          have hlt2 : d.fsr_id < g.FSRs_to_keys.length := by
            rw [hw.keys_len]; exact hlt
          rw [List.getElem?_append, if_pos hlt2]
          exact hw.id_to_key k d hmem2

theorem wellFormed_foldl (hash : String → Nat) :
    ∀ (l : List RegionQuery) (g : GeometryState), WellFormed g →
      WellFormed (l.foldl (fun g r => (findFSRId hash g r).2) g)
  | [], _, hw => hw
  | r :: rest, g, hw =>
      wellFormed_foldl hash rest ((findFSRId hash g r).2) (wellFormed_findFSRId hash g r hw)

theorem wellFormed_initFSR (hash : String → Nat) (regions : List RegionQuery) :
    WellFormed (initFlatSourceRegions hash regions) :=
  wellFormed_foldl hash regions emptyGeometry wellFormed_empty

theorem mapKeys_foldl (hash : String → Nat) :
    ∀ (l : List RegionQuery) (g : GeometryState) (k : Nat),
      (k ∈ mapKeys (l.foldl (fun g r => (findFSRId hash g r).2) g) ↔
        k ∈ mapKeys g ∨ k ∈ l.map (fun r => hash r.key))
  | [], g, k => by simp
  | r :: rest, g, k => by
      have ih := mapKeys_foldl hash rest ((findFSRId hash g r).2) k
      rw [List.foldl_cons]
      cases hf : fsrMapFind g.FSR_keys_map (hash r.key) with
      | some d =>
          have hin : hash r.key ∈ mapKeys g := by
            have := List.mem_map_of_mem (fun e => e.1) (fsrMapFind_eq_some_mem hf)
            simpa [mapKeys] using this
          have hstep : (findFSRId hash g r).2 = g := by simp [findFSRId, hf]
          rw [hstep] at ih ⊢
          rw [ih]
          simp only [List.map_cons, List.mem_cons]
          constructor
          · rintro (h1 | h2)
            · exact Or.inl h1
            · exact Or.inr (Or.inr h2)
          · rintro (h1 | h2 | h3)
            · exact Or.inl h1
            · exact Or.inl (h2 ▸ hin)
            · exact Or.inr h3
      | none =>
          rw [ih]
          have hstep : mapKeys (findFSRId hash g r).2 = hash r.key :: mapKeys g := by
            simp [findFSRId, hf, mapKeys]
          rw [hstep]
          simp only [List.map_cons, List.mem_cons]
          constructor
          · rintro ((h1 | h2) | h3)
            · exact Or.inr (Or.inl h1)
            · exact Or.inl h2
            · exact Or.inr (Or.inr h3)
          · rintro (h1 | h2 | h3)
            · exact Or.inl (Or.inr h1)
            · exact Or.inl (Or.inl h2)
            · exact Or.inr h3

theorem mapKeys_initFSR (hash : String → Nat) (regions : List RegionQuery) (k : Nat) :
    k ∈ mapKeys (initFlatSourceRegions hash regions) ↔
      k ∈ regions.map (fun r => hash r.key) := by
  have := mapKeys_foldl hash regions emptyGeometry k
  simpa [initFlatSourceRegions, emptyGeometry, mapKeys] using this

/-! Helper lemmas: resolvability and identity after the enumeration pass. -/

theorem assignedIds_nodup {g : GeometryState} (hw : WellFormed g) :
    (assignedIds g).Nodup :=
  hw.ids_range.symm.nodup (List.nodup_range _)

theorem entry_eq_of_id_eq {g : GeometryState} (hw : WellFormed g) {k1 k2 : Nat}
    {d1 d2 : fsr_data} (h1 : (k1, d1) ∈ g.FSR_keys_map) (h2 : (k2, d2) ∈ g.FSR_keys_map)
    (hid : d1.fsr_id = d2.fsr_id) : k1 = k2 ∧ d1 = d2 := by
  have hnd : (g.FSR_keys_map.map (fun e => e.2.fsr_id)).Nodup := by
    simpa [assignedIds] using assignedIds_nodup hw
  have hd : ((k1, d1) : Nat × fsr_data) = (k2, d2) :=
    List.inj_on_of_nodup_map hnd h1 h2 hid
  cases hd
  exact ⟨rfl, rfl⟩

theorem entry_eq_of_key_eq {g : GeometryState} (hw : WellFormed g) {k : Nat}
    {d1 d2 : fsr_data} (h1 : (k, d1) ∈ g.FSR_keys_map) (h2 : (k, d2) ∈ g.FSR_keys_map) :
    d1 = d2 := by
  have hnd : (g.FSR_keys_map.map (fun e => e.1)).Nodup := by
    simpa [mapKeys] using hw.keys_nodup
  have hd : ((k, d1) : Nat × fsr_data) = (k, d2) :=
    List.inj_on_of_nodup_map hnd h1 h2 rfl
  cases hd
  rfl

theorem fsrMapFind_initFSR_some (hash : String → Nat) (regions : List RegionQuery)
    (r : RegionQuery) (hr : r ∈ regions) :
    ∃ d, fsrMapFind (initFlatSourceRegions hash regions).FSR_keys_map (hash r.key) = some d := by
  have hk : hash r.key ∈ mapKeys (initFlatSourceRegions hash regions) :=
    (mapKeys_initFSR hash regions _).mpr (List.mem_map_of_mem _ hr)
  exact fsrMapFind_isSome_of_mem_keys (by simpa [mapKeys] using hk)

theorem numFSRs_initFSR_perm (hash : String → Nat) (l1 l2 : List RegionQuery)
    (hperm : List.Perm l1 l2) :
    (initFlatSourceRegions hash l1).num_FSRs = (initFlatSourceRegions hash l2).num_FSRs := by
  have hw1 := wellFormed_initFSR hash l1
  have hw2 := wellFormed_initFSR hash l2
  have hk : List.Perm (mapKeys (initFlatSourceRegions hash l1))
      (mapKeys (initFlatSourceRegions hash l2)) := by
    rw [List.perm_ext_iff_of_nodup hw1.keys_nodup hw2.keys_nodup]
    intro k
    rw [mapKeys_initFSR, mapKeys_initFSR]
    exact (hperm.map (fun r => hash r.key)).mem_iff
  have hlen := hk.length_eq
  have e1 : (mapKeys (initFlatSourceRegions hash l1)).length =
      (initFlatSourceRegions hash l1).num_FSRs := by
    simpa [mapKeys] using hw1.map_len
  have e2 : (mapKeys (initFlatSourceRegions hash l2)).length =
      (initFlatSourceRegions hash l2).num_FSRs := by
    simpa [mapKeys] using hw2.map_len
  rw [← e1, ← e2, hlen]

/-- C1: the claim that a Registry lookup verifies full-fingerprint identity before
returning an existing id fails on the code.  Per the declarations in Geometry.h the
Registry keys its records by the std::size_t hash of the fingerprint and the stored
fsr_data record retains no fingerprint, so a lookup for a distinct fingerprint whose
hash collides with a registered one returns the other fingerprint's id and allocates
nothing: the two fingerprints are silently merged into one FSR id. -/
theorem findFSRId_merges_hash_colliding_fingerprints
    (hash : String → Nat) (g : GeometryState) (r1 r2 : RegionQuery) (d : fsr_data)
    (_hne : r1.key ≠ r2.key) (hcol : hash r1.key = hash r2.key)
    (hreg : fsrMapFind g.FSR_keys_map (hash r1.key) = some d) :
    (findFSRId hash g r2).1 = d.fsr_id ∧ (findFSRId hash g r2).2 = g ∧
      lookupFSRId hash g r2.key = some d.fsr_id := by
  have hreg2 : fsrMapFind g.FSR_keys_map (hash r2.key) = some d := by
    rw [← hcol]
    exact hreg
  refine ⟨?_, ?_, ?_⟩ <;> simp [findFSRId, lookupFSRId, hreg2]

/-- Closed demonstration of the hash-collision merge at a concrete failing input:
registering fingerprint "ab" and then resolving the distinct fingerprint "cd" under a
hash on which the two collide returns the id 0 allocated for "ab" and leaves the
Registry unchanged. -/
theorem findFSRId_merges_hash_colliding_fingerprints_demo :
    (findFSRId String.length emptyGeometry
        { key := "ab", material := 1, point := { x := 0, y := 0, z := 0 } }).2 =
      { num_FSRs := 1,
        FSR_keys_map :=
          [(2, { fsr_id := 0, point := { x := 0, y := 0, z := 0 },
                 centroid := { x := 0, y := 0, z := 0 } })],
        FSRs_to_keys := [2], FSRs_to_material_IDs := [1] } ∧
    "ab" ≠ "cd" ∧
    (findFSRId String.length
        { num_FSRs := 1,
          FSR_keys_map :=
            [(2, { fsr_id := 0, point := { x := 0, y := 0, z := 0 },
                   centroid := { x := 0, y := 0, z := 0 } })],
          FSRs_to_keys := [2], FSRs_to_material_IDs := [1] }
        { key := "cd", material := 2, point := { x := 1, y := 0, z := 0 } }).1 = 0 ∧
    (findFSRId String.length
        { num_FSRs := 1,
          FSR_keys_map :=
            [(2, { fsr_id := 0, point := { x := 0, y := 0, z := 0 },
                   centroid := { x := 0, y := 0, z := 0 } })],
          FSRs_to_keys := [2], FSRs_to_material_IDs := [1] }
        { key := "cd", material := 2, point := { x := 1, y := 0, z := 0 } }).2 =
      { num_FSRs := 1,
        FSR_keys_map :=
          [(2, { fsr_id := 0, point := { x := 0, y := 0, z := 0 },
                 centroid := { x := 0, y := 0, z := 0 } })],
        FSRs_to_keys := [2], FSRs_to_material_IDs := [1] } := by
  refine ⟨by rfl, by decide, ?_⟩
  have h := findFSRId_merges_hash_colliding_fingerprints String.length
    { num_FSRs := 1,
      FSR_keys_map :=
        [(2, { fsr_id := 0, point := { x := 0, y := 0, z := 0 },
               centroid := { x := 0, y := 0, z := 0 } })],
      FSRs_to_keys := [2], FSRs_to_material_IDs := [1] }
    { key := "ab", material := 1, point := { x := 0, y := 0, z := 0 } }
    { key := "cd", material := 2, point := { x := 1, y := 0, z := 0 } }
    { fsr_id := 0, point := { x := 0, y := 0, z := 0 },
      centroid := { x := 0, y := 0, z := 0 } }
    (by decide) (by decide) (by rfl)
  exact ⟨h.1, h.2.1⟩

/-- C2: after the eager enumeration pass the Registry is well formed: both id-indexed
sequences have length num_FSRs, num_FSRs equals the record count, the assigned ids are
exactly 0, …, num_FSRs-1 with no gaps or duplicates, and — whenever the external hash
separates the enumerated fingerprints, which is the regime the bijection invariant
presupposes (hash collisions are the separate defect treated with the collision claim)
— every enumerated fingerprint resolves to exactly one id below num_FSRs and distinct
fingerprints resolve to distinct ids (fingerprint↔id bijection). -/
theorem initFSR_wellFormed_bijection (hash : String → Nat) (regions : List RegionQuery)
    (hinj : ∀ r1 ∈ regions, ∀ r2 ∈ regions, hash r1.key = hash r2.key → r1.key = r2.key) :
    WellFormed (initFlatSourceRegions hash regions) ∧
    (∀ r ∈ regions, ∃ i, i < getNumFSRs (initFlatSourceRegions hash regions) ∧
        lookupFSRId hash (initFlatSourceRegions hash regions) r.key = some i) ∧
    (∀ r1 ∈ regions, ∀ r2 ∈ regions,
        (lookupFSRId hash (initFlatSourceRegions hash regions) r1.key =
            lookupFSRId hash (initFlatSourceRegions hash regions) r2.key ↔
          r1.key = r2.key)) := by
  have hw := wellFormed_initFSR hash regions
  refine ⟨hw, ?_, ?_⟩
  · intro r hr
    obtain ⟨d, hf⟩ := fsrMapFind_initFSR_some hash regions r hr
    refine ⟨d.fsr_id, ?_, ?_⟩
    · have hmem := fsrMapFind_eq_some_mem hf
      have hid : d.fsr_id ∈ assignedIds (initFlatSourceRegions hash regions) := by
        simpa [assignedIds] using List.mem_map_of_mem (fun e => e.2.fsr_id) hmem
      exact List.mem_range.mp (hw.ids_range.mem_iff.mp hid)
    · simp [lookupFSRId, hf]
  · intro r1 hr1 r2 hr2
    constructor
    · intro heq
      obtain ⟨d1, hf1⟩ := fsrMapFind_initFSR_some hash regions r1 hr1
      obtain ⟨d2, hf2⟩ := fsrMapFind_initFSR_some hash regions r2 hr2
      rw [lookupFSRId, lookupFSRId, hf1, hf2] at heq
      simp at heq
      have hm1 := fsrMapFind_eq_some_mem hf1
      have hm2 := fsrMapFind_eq_some_mem hf2
      exact hinj r1 hr1 r2 hr2 (entry_eq_of_id_eq hw hm1 hm2 heq).1
    · intro heq
      rw [heq]

/-- Closed instance of the enumeration well-formedness theorem on a concrete
two-region geometry with a collision-free hash. -/
theorem initFSR_wellFormed_bijection_demo :
    WellFormed (initFlatSourceRegions String.length
      [{ key := "a", material := 1, point := { x := 0, y := 0, z := 0 } },
       { key := "bb", material := 2, point := { x := 1, y := 0, z := 0 } }]) ∧
    (lookupFSRId String.length
        (initFlatSourceRegions String.length
          [{ key := "a", material := 1, point := { x := 0, y := 0, z := 0 } },
           { key := "bb", material := 2, point := { x := 1, y := 0, z := 0 } }]) "a" =
      lookupFSRId String.length
        (initFlatSourceRegions String.length
          [{ key := "a", material := 1, point := { x := 0, y := 0, z := 0 } },
           { key := "bb", material := 2, point := { x := 1, y := 0, z := 0 } }]) "bb" ↔
      "a" = "bb") := by
  have h := initFSR_wellFormed_bijection String.length
    [{ key := "a", material := 1, point := { x := 0, y := 0, z := 0 } },
     { key := "bb", material := 2, point := { x := 1, y := 0, z := 0 } }]
    (by decide)
  exact ⟨h.1, h.2.2
    { key := "a", material := 1, point := { x := 0, y := 0, z := 0 } } (by simp)
    { key := "bb", material := 2, point := { x := 1, y := 0, z := 0 } } (by simp)⟩

/-- C4: the bulk Registry replacement contract: a call whose supplied structures do not
have matching cardinality with ids contiguous from 0 fails with a ConsistencyError and
leaves the prior Registry state untouched; when the contract holds, the call installs
exactly the supplied state, atomically, with num_FSRs equal to the common cardinality. -/
theorem setFSRMapsBulk_contract (g : GeometryState) (m : List (Nat × fsr_data))
    (keys : List Nat) (mats : List Int) :
    (¬ (keys.length = mats.length ∧ m.length = keys.length ∧
          List.Perm (m.map fun e => e.2.fsr_id) (List.range keys.length)) →
        setFSRMapsBulk g m keys mats =
          (Except.error
            "ConsistencyError: bulk Registry replacement with mismatched cardinalities",
            g)) ∧
    ((keys.length = mats.length ∧ m.length = keys.length ∧
          List.Perm (m.map fun e => e.2.fsr_id) (List.range keys.length)) →
        setFSRMapsBulk g m keys mats =
          (Except.ok (),
            { num_FSRs := keys.length, FSR_keys_map := m,
              FSRs_to_keys := keys, FSRs_to_material_IDs := mats }) ∧
        getNumFSRs (setFSRMapsBulk g m keys mats).2 = keys.length ∧
        getFSRsToKeys (setFSRMapsBulk g m keys mats).2 = keys ∧
        getFSRsToMaterialIDs (setFSRMapsBulk g m keys mats).2 = mats ∧
        getFSRKeysMap (setFSRMapsBulk g m keys mats).2 = m) := by
  constructor
  · intro h
    simp only [setFSRMapsBulk, if_neg h]
  · intro h
    simp only [setFSRMapsBulk, if_pos h, getNumFSRs, getFSRsToKeys,
      getFSRsToMaterialIDs, getFSRKeysMap]
    exact ⟨trivial, trivial, trivial, trivial, trivial⟩

/-- Closed instance of the bulk-replacement contract: a mismatched call (one id, no
materials) is rejected and leaves the empty Registry untouched; a matching call
installs exactly the supplied one-record state. -/
theorem setFSRMapsBulk_contract_demo :
    setFSRMapsBulk emptyGeometry [] [5] [] =
      (Except.error
        "ConsistencyError: bulk Registry replacement with mismatched cardinalities",
        emptyGeometry) ∧
    setFSRMapsBulk emptyGeometry
        [(5, { fsr_id := 0, point := { x := 0, y := 0, z := 0 },
               centroid := { x := 0, y := 0, z := 0 } })] [5] [7] =
      (Except.ok (),
        { num_FSRs := 1,
          FSR_keys_map :=
            [(5, { fsr_id := 0, point := { x := 0, y := 0, z := 0 },
                   centroid := { x := 0, y := 0, z := 0 } })],
          FSRs_to_keys := [5], FSRs_to_material_IDs := [7] }) := by
  constructor
  · exact (setFSRMapsBulk_contract emptyGeometry [] [5] []).1 (by decide)
  · exact ((setFSRMapsBulk_contract emptyGeometry
      [(5, { fsr_id := 0, point := { x := 0, y := 0, z := 0 },
             centroid := { x := 0, y := 0, z := 0 } })] [5] [7]).2 (by decide)).1

/-- C5: under the Registry's concurrency contract the compound operation
check-absent → allocate-next-id → insert-record is a single critical section, so a
concurrent enumeration by N workers is equivalent to executing the region visits in
some interleaved sequential order, i.e. some permutation of the single-threaded visit
sequence.  For every such interleaving the resulting Registry has the same num_FSRs
and the same registered-fingerprint set as the single-threaded enumeration, it is well
formed, and it is bijective: no fingerprint key holds two different records and no FSR
id is held by two different fingerprint keys. -/
theorem enumeration_order_independent (hash : String → Nat) (l1 l2 : List RegionQuery)
    (hperm : List.Perm l1 l2) :
    getNumFSRs (initFlatSourceRegions hash l1) = getNumFSRs (initFlatSourceRegions hash l2) ∧
    WellFormed (initFlatSourceRegions hash l1) ∧
    WellFormed (initFlatSourceRegions hash l2) ∧
    (∀ k, k ∈ mapKeys (initFlatSourceRegions hash l1) ↔
        k ∈ mapKeys (initFlatSourceRegions hash l2)) ∧
    (∀ k d1 d2, (k, d1) ∈ (initFlatSourceRegions hash l1).FSR_keys_map →
        (k, d2) ∈ (initFlatSourceRegions hash l1).FSR_keys_map → d1 = d2) ∧
    (∀ k1 k2 d1 d2, (k1, d1) ∈ (initFlatSourceRegions hash l1).FSR_keys_map →
        (k2, d2) ∈ (initFlatSourceRegions hash l1).FSR_keys_map →
        d1.fsr_id = d2.fsr_id → k1 = k2) := by
  have hw1 := wellFormed_initFSR hash l1
  have hw2 := wellFormed_initFSR hash l2
  refine ⟨numFSRs_initFSR_perm hash l1 l2 hperm, hw1, hw2, ?_, ?_, ?_⟩
  · intro k
    rw [mapKeys_initFSR, mapKeys_initFSR]
    exact (hperm.map (fun r => hash r.key)).mem_iff
  · intro k d1 d2 h1 h2
    exact entry_eq_of_key_eq hw1 h1 h2
  · intro k1 k2 d1 d2 h1 h2 hid
    exact (entry_eq_of_id_eq hw1 h1 h2 hid).1

/-- Closed instance of enumeration order-independence: two interleavings of the same
two region visits produce Registries with the same num_FSRs. -/
theorem enumeration_order_independent_demo :
    getNumFSRs (initFlatSourceRegions String.length
      [{ key := "a", material := 1, point := { x := 0, y := 0, z := 0 } },
       { key := "bb", material := 2, point := { x := 1, y := 0, z := 0 } }]) =
    getNumFSRs (initFlatSourceRegions String.length
      [{ key := "bb", material := 2, point := { x := 1, y := 0, z := 0 } },
       { key := "a", material := 1, point := { x := 0, y := 0, z := 0 } }]) :=
  (enumeration_order_independent String.length
    [{ key := "a", material := 1, point := { x := 0, y := 0, z := 0 } },
     { key := "bb", material := 2, point := { x := 1, y := 0, z := 0 } }]
    [{ key := "bb", material := 2, point := { x := 1, y := 0, z := 0 } },
     { key := "a", material := 1, point := { x := 0, y := 0, z := 0 } }]
    (by decide)).1

/-- C10: the container accessors return by-value copies (their declared return types
in Geometry.h are plain std::vector / std::unordered_map): whatever mutations a caller
applies to the returned copies, the Geometry's internal _FSRs_to_keys,
_FSRs_to_material_IDs and _FSR_keys_map are unchanged and repeated accessor calls
return the same contents as before the caller's mutation. -/
theorem accessors_return_copies (g : GeometryState) (f1 : List Nat → List Nat)
    (f2 : List Int → List Int) (f3 : List (Nat × fsr_data) → List (Nat × fsr_data)) :
    (accessorSession g f1 f2 f3).2 = g ∧
    getFSRsToKeys (accessorSession g f1 f2 f3).2 = getFSRsToKeys g ∧
    getFSRsToMaterialIDs (accessorSession g f1 f2 f3).2 = getFSRsToMaterialIDs g ∧
    getFSRKeysMap (accessorSession g f1 f2 f3).2 = getFSRKeysMap g ∧
    getNumFSRs (accessorSession g f1 f2 f3).2 = getNumFSRs g :=
  ⟨rfl, rfl, rfl, rfl, rfl⟩

/-! Helper lemmas: segment splitting and the degenerate-segment filter. -/

theorem splitSegment_mem {maxL d l : ℚ} (hmax : 0 < maxL) (hl : l ∈ splitSegment maxL d) :
    0 < l ∧ l ≤ maxL := by
  rw [splitSegment] at hl
  obtain ⟨hn, hleq⟩ := List.mem_replicate.mp hl
  have hceil_pos : 0 < ⌈d / maxL⌉ := by
    by_contra hle
    push_neg at hle
    exact hn (Int.toNat_eq_zero.mpr hle)
  have hdpos : 0 < d := by
    have h1 : 0 < d / maxL := Int.ceil_pos.mp hceil_pos
    have h2 := mul_pos h1 hmax
    rwa [div_mul_cancel₀ _ (ne_of_gt hmax)] at h2
  have hnq : (0 : ℚ) < ((Int.toNat ⌈d / maxL⌉ : Nat) : ℚ) := by
    have : 0 < Int.toNat ⌈d / maxL⌉ := by
      rcases Nat.eq_zero_or_pos (Int.toNat ⌈d / maxL⌉) with h0 | hpos
      · exact absurd h0 hn
      · exact hpos
    exact_mod_cast this
  constructor
  · rw [hleq]
    exact div_pos hdpos hnq
  · rw [hleq, div_le_iff₀ hnq]
    have hcast : ((Int.toNat ⌈d / maxL⌉ : Nat) : ℚ) = ((⌈d / maxL⌉ : ℤ) : ℚ) := by
      exact_mod_cast Int.toNat_of_nonneg (le_of_lt hceil_pos)
    have hle2 : d / maxL ≤ ((⌈d / maxL⌉ : ℤ) : ℚ) := Int.le_ceil _
    rw [hcast]
    calc d = d / maxL * maxL := by rw [div_mul_cancel₀ _ (ne_of_gt hmax)]
    _ ≤ ((⌈d / maxL⌉ : ℤ) : ℚ) * maxL := mul_le_mul_of_nonneg_right hle2 (le_of_lt hmax)
    _ = maxL * ((⌈d / maxL⌉ : ℤ) : ℚ) := mul_comm _ _

theorem splitSegment_eq_of_mem {maxL d l1 l2 : ℚ} (h1 : l1 ∈ splitSegment maxL d)
    (h2 : l2 ∈ splitSegment maxL d) : l1 = l2 := by
  rw [splitSegment] at h1 h2
  rw [(List.mem_replicate.mp h1).2, (List.mem_replicate.mp h2).2]

theorem splitSegment_sum {maxL d : ℚ} (hmax : 0 < maxL) (hd : 0 < d) :
    (splitSegment maxL d).sum = d := by
  rw [splitSegment, List.sum_replicate]
  have hceil_pos : 0 < ⌈d / maxL⌉ := Int.ceil_pos.mpr (div_pos hd hmax)
  have hn0 : ((Int.toNat ⌈d / maxL⌉ : Nat) : ℚ) ≠ 0 := by
    have h1 : Int.toNat ⌈d / maxL⌉ ≠ 0 := by
      intro h0
      exact absurd (Int.toNat_eq_zero.mp h0) (not_le.mpr hceil_pos)
    exact_mod_cast h1
  rw [nsmul_eq_mul]
  field_simp

theorem filterMin_sum_bound (minL : ℚ) :
    ∀ ls : List ℚ, (∀ l ∈ ls, 0 < l) →
      (filterMin minL ls).sum ≤ ls.sum ∧
      ls.sum - (filterMin minL ls).sum ≤
        ((ls.countP (fun l => decide (l < minL)) : Nat) : ℚ) * minL
  | [], _ => by simp [filterMin]
  | a :: tl, hpos => by
      have ha : 0 < a := hpos a (List.mem_cons_self a tl)
      have ih := filterMin_sum_bound minL tl (fun l hl => hpos l (List.mem_cons_of_mem a hl))
      by_cases hcut : minL ≤ a
      · have hfilter : filterMin minL (a :: tl) = a :: filterMin minL tl := by
          simp [filterMin, List.filter_cons, hcut]
        have hcount : (a :: tl).countP (fun l => decide (l < minL)) =
            tl.countP (fun l => decide (l < minL)) := by
          simp [List.countP_cons, not_lt.mpr hcut]
        rw [hfilter, hcount]
        constructor
        · simp only [List.sum_cons]
          linarith [ih.1]
        · simp only [List.sum_cons]
          have := ih.2
          linarith
      · have hlt : a < minL := not_le.mp hcut
        have hfilter : filterMin minL (a :: tl) = filterMin minL tl := by
          simp [filterMin, List.filter_cons, hcut]
        have hcount : (a :: tl).countP (fun l => decide (l < minL)) =
            tl.countP (fun l => decide (l < minL)) + 1 := by
          simp [List.countP_cons, hlt]
        rw [hfilter, hcount]
        constructor
        · simp only [List.sum_cons]
          linarith [ih.1]
        · simp only [List.sum_cons]
          have h2 := ih.2
          have hcast : (((tl.countP (fun l => decide (l < minL)) + 1 : Nat)) : ℚ) =
              ((tl.countP (fun l => decide (l < minL)) : Nat) : ℚ) + 1 := by
            push_cast
            ring
          rw [hcast]
          linarith

/-! Helper lemmas: the segmentation loop. -/

theorem segmentizeLoop_state (hash : String → Nat) (minL maxL : ℚ) :
    ∀ (chords : List Chord) (g : GeometryState),
      (segmentizeLoop hash minL maxL g chords).2 = g
  | [], _ => rfl
  | c :: rest, g => by
      have ih := segmentizeLoop_state hash minL maxL rest g
      cases hl : lookupFSRId hash g c.key with
      | none => simp [segmentizeLoop, hl]
      | some i =>
          rcases h2 : segmentizeLoop hash minL maxL g rest with ⟨res, g2⟩
          have hg2 : g2 = g := by
            rw [h2] at ih
            exact ih
          cases res with
          | ok ss => simp [segmentizeLoop, hl, h2, hg2]
          | error e => simp [segmentizeLoop, hl, h2, hg2]

theorem segmentizeLoop_ok (hash : String → Nat) (minL maxL : ℚ) :
    ∀ (chords : List Chord) (g : GeometryState),
      (∀ c ∈ chords, lookupFSRId hash g c.key ≠ none) →
      ∃ segs, segmentizeLoop hash minL maxL g chords = (Except.ok segs, g) ∧
        (segs.map TrackSegment.length).sum =
          (chords.map (fun c => (filterMin minL (splitSegment maxL c.length)).sum)).sum
  | [], _, _ => ⟨[], rfl, rfl⟩
  | c :: rest, g, hall => by
      have hc := hall c (List.mem_cons_self c rest)
      cases hl : lookupFSRId hash g c.key with
      | none => exact absurd hl hc
      | some i =>
          obtain ⟨ss, hss, hlen⟩ := segmentizeLoop_ok hash minL maxL rest g
            (fun c2 h2 => hall c2 (List.mem_cons_of_mem c h2))
          refine ⟨(filterMin minL (splitSegment maxL c.length)).map
              (fun l => { length := l, fsr_id := i,
                          material_id := g.FSRs_to_material_IDs.getD i 0 }) ++ ss, ?_, ?_⟩
          · simp [segmentizeLoop, hl, hss]
          · rw [List.map_append, List.sum_append, List.map_cons, List.sum_cons, hlen]
            congr 1
            rw [List.map_map]
            have hfun : (TrackSegment.length ∘ fun l =>
                ({ length := l, fsr_id := i,
                   material_id := g.FSRs_to_material_IDs.getD i 0 } : TrackSegment)) =
                fun l => l := rfl
            rw [hfun]
            simp

theorem segmentizeLoop_mem (hash : String → Nat) (minL maxL : ℚ) :
    ∀ (chords : List Chord) (g : GeometryState) (segs : List TrackSegment)
      (g2 : GeometryState),
      segmentizeLoop hash minL maxL g chords = (Except.ok segs, g2) →
      ∀ s ∈ segs, ∃ c ∈ chords, s.length ∈ filterMin minL (splitSegment maxL c.length)
  | [], g, segs, g2, heq => by
      simp only [segmentizeLoop, Prod.mk.injEq, Except.ok.injEq] at heq
      intro s hs
      rw [← heq.1] at hs
      simp at hs
  | c :: rest, g, segs, g2, heq => by
      cases hl : lookupFSRId hash g c.key with
      | none => simp [segmentizeLoop, hl] at heq
      | some i =>
          rcases h2 : segmentizeLoop hash minL maxL g rest with ⟨res, g3⟩
          cases res with
          | error e => simp [segmentizeLoop, hl, h2] at heq
          | ok ss =>
              have ih := segmentizeLoop_mem hash minL maxL rest g ss g3 h2
              simp only [segmentizeLoop, hl, h2, Prod.mk.injEq, Except.ok.injEq] at heq
              intro s hs
              rw [← heq.1] at hs
              rcases List.mem_append.mp hs with h5 | h5
              · obtain ⟨l, hlmem, hseq⟩ := List.mem_map.mp h5
                refine ⟨c, List.mem_cons_self c rest, ?_⟩
                rw [← hseq]
                simpa using hlmem
              · obtain ⟨c2, hc2, hmem⟩ := ih s h5
                exact ⟨c2, List.mem_cons_of_mem c hc2, hmem⟩

theorem segmentizeLoop_error_of_absent (hash : String → Nat) (minL maxL : ℚ) :
    ∀ (chords : List Chord) (g : GeometryState),
      (∃ c ∈ chords, lookupFSRId hash g c.key = none) →
      ∃ e, (segmentizeLoop hash minL maxL g chords).1 = Except.error e
  | [], _, habs => by simp at habs
  | c :: rest, g, habs => by
      cases hl : lookupFSRId hash g c.key with
      | none =>
          refine ⟨"ConsistencyError: segment fingerprint not registered", ?_⟩
          simp [segmentizeLoop, hl]
      | some i =>
          have habs2 : ∃ c2 ∈ rest, lookupFSRId hash g c2.key = none := by
            obtain ⟨c2, hc2, hnone⟩ := habs
            rcases List.mem_cons.mp hc2 with heq2 | hmem
            · subst heq2
              rw [hl] at hnone
              exact absurd hnone (by simp)
            · exact ⟨c2, hmem, hnone⟩
          obtain ⟨e, he⟩ := segmentizeLoop_error_of_absent hash minL maxL rest g habs2
          rcases h2 : segmentizeLoop hash minL maxL g rest with ⟨res, g3⟩
          cases res with
          | ok ss =>
              rw [h2] at he
              simp at he
          | error e2 => exact ⟨e2, by simp [segmentizeLoop, hl, h2]⟩

theorem segmentize2D_state (hash : String → Nat) (minL maxL : ℚ) (g : GeometryState)
    (tl : ℚ) (chords : List Chord) (ex : Bool) :
    (segmentize2D hash minL maxL g tl chords ex).2 = g := by
  have hs := segmentizeLoop_state hash minL maxL chords g
  rcases h2 : segmentizeLoop hash minL maxL g chords with ⟨res, g2⟩
  have hg2 : g2 = g := by
    rw [h2] at hs
    exact hs
  cases res with
  | ok segs =>
      by_cases hc : ex = true ∨ (chords.map Chord.length).sum = tl
      · simp [segmentize2D, h2, hc, hg2]
      · simp [segmentize2D, h2, hc, hg2]
  | error e => simp [segmentize2D, h2, hg2]

theorem chords_sum_bound (minL maxL : ℚ) (hmax : 0 < maxL) :
    ∀ chords : List Chord, (∀ c ∈ chords, 0 < c.length) →
      (chords.map (fun c => (filterMin minL (splitSegment maxL c.length)).sum)).sum ≤
        (chords.map Chord.length).sum ∧
      (chords.map Chord.length).sum -
          (chords.map (fun c => (filterMin minL (splitSegment maxL c.length)).sum)).sum ≤
        ((discardedCount minL maxL chords : Nat) : ℚ) * minL
  | [], _ => by simp [discardedCount]
  | c :: rest, hpos => by
      have hc := hpos c (List.mem_cons_self c rest)
      have ih := chords_sum_bound minL maxL hmax rest
        (fun c2 h2 => hpos c2 (List.mem_cons_of_mem c h2))
      have hsplit_pos : ∀ l ∈ splitSegment maxL c.length, 0 < l :=
        fun l hl => (splitSegment_mem hmax hl).1
      have hf := filterMin_sum_bound minL (splitSegment maxL c.length) hsplit_pos
      have hsum := splitSegment_sum hmax hc
      have h1 : (filterMin minL (splitSegment maxL c.length)).sum ≤ c.length :=
        le_of_le_of_eq hf.1 hsum
      have h2 : c.length - (filterMin minL (splitSegment maxL c.length)).sum ≤
          (((splitSegment maxL c.length).countP
              (fun l => decide (l < minL)) : Nat) : ℚ) * minL := by
        have h3 := hf.2
        rw [hsum] at h3
        exact h3
      have hdcount : discardedCount minL maxL (c :: rest) =
          (splitSegment maxL c.length).countP (fun l => decide (l < minL)) +
            discardedCount minL maxL rest := by
        simp [discardedCount]
      constructor
      · simp only [List.map_cons, List.sum_cons]
        linarith [ih.1]
      · simp only [List.map_cons, List.sum_cons]
        rw [hdcount]
        push_cast
        have h3 := ih.2
        push_cast at h3
        linarith

/-- C3: after the Registry is finalized, segmentation is lookup-only: segmentize2D and
segmentize3D leave the Geometry Registry state — num_FSRs and the fingerprint→id
map — unchanged in every execution, and whenever some traversed segment's fingerprint
is not registered the call returns a fatal ConsistencyError instead of silently
allocating a new FSR id. -/
theorem segmentize_lookup_only (hash : String → Nat) (minL maxL : ℚ) (g : GeometryState)
    (tl : ℚ) (chords : List Chord) (ex : Bool) :
    ((segmentize2D hash minL maxL g tl chords ex).2 = g ∧
      (segmentize3D hash minL maxL g tl chords ex).2 = g ∧
      getNumFSRs (segmentize2D hash minL maxL g tl chords ex).2 = getNumFSRs g ∧
      getFSRKeysMap (segmentize2D hash minL maxL g tl chords ex).2 = getFSRKeysMap g) ∧
    ((∃ c ∈ chords, lookupFSRId hash g c.key = none) →
      ∃ e, (segmentize2D hash minL maxL g tl chords ex).1 = Except.error e) := by
  have hst := segmentize2D_state hash minL maxL g tl chords ex
  refine ⟨⟨hst, hst, by rw [hst], by rw [hst]⟩, ?_⟩
  intro habs
  obtain ⟨e, he⟩ := segmentizeLoop_error_of_absent hash minL maxL chords g habs
  rcases h2 : segmentizeLoop hash minL maxL g chords with ⟨res, g2⟩
  rw [h2] at he
  cases res with
  | ok ss => simp at he
  | error e2 =>
      refine ⟨e2, ?_⟩
      simp [segmentize2D, h2]

/-- Closed instance of lookup-only segmentation: over a Registry holding only the
fingerprint "a", segmentizing a chord with the unregistered fingerprint "zz" leaves
the Registry unchanged and fails with an error. -/
theorem segmentize_lookup_only_demo :
    (segmentize2D String.length 0 1
        (initFlatSourceRegions String.length
          [{ key := "a", material := 1, point := { x := 0, y := 0, z := 0 } }])
        1 [{ key := "zz", length := 1 }] false).2 =
      initFlatSourceRegions String.length
        [{ key := "a", material := 1, point := { x := 0, y := 0, z := 0 } }] ∧
    ∃ e, (segmentize2D String.length 0 1
        (initFlatSourceRegions String.length
          [{ key := "a", material := 1, point := { x := 0, y := 0, z := 0 } }])
        1 [{ key := "zz", length := 1 }] false).1 = Except.error e := by
  have h := segmentize_lookup_only String.length 0 1
    (initFlatSourceRegions String.length
      [{ key := "a", material := 1, point := { x := 0, y := 0, z := 0 } }])
    1 [{ key := "zz", length := 1 }] false
  exact ⟨h.1.1, h.2 (by decide)⟩

/-- C6: every segment emitted by segmentization has length at least the configured
minimum (the degenerate filter drops anything below it, without merging), strictly
positive, and at most the configured maximum; a raw chord distance d > 0 is split into
equal sub-segments — all equal, each at most the maximum — whose lengths sum exactly
to d; and the emitted list is precisely the split filtered by the minimum bound. -/
theorem segment_lengths_bounded (hash : String → Nat) (minL maxL : ℚ) (g : GeometryState)
    (tl : ℚ) (chords : List Chord) (ex : Bool) (hmax : 0 < maxL) :
    (∀ segs g2, segmentize2D hash minL maxL g tl chords ex = (Except.ok segs, g2) →
        ∀ s ∈ segs, minL ≤ s.length ∧ 0 < s.length ∧ s.length ≤ maxL) ∧
    (∀ d, 0 < d → (splitSegment maxL d).sum = d) ∧
    (∀ d l1 l2, l1 ∈ splitSegment maxL d → l2 ∈ splitSegment maxL d → l1 = l2) ∧
    (∀ d, filterMin minL (splitSegment maxL d) =
        (splitSegment maxL d).filter (fun l => decide (minL ≤ l))) := by
  refine ⟨?_, fun d hd => splitSegment_sum hmax hd,
    fun d l1 l2 h1 h2 => splitSegment_eq_of_mem h1 h2, fun d => rfl⟩
  intro segs g2 heq s hs
  rcases h2 : segmentizeLoop hash minL maxL g chords with ⟨res, g3⟩
  cases res with
  | error e =>
      rw [segmentize2D, h2] at heq
      simp at heq
  | ok ss =>
      by_cases hcond : ex = true ∨ (chords.map Chord.length).sum = tl
      · rw [segmentize2D, h2] at heq
        have heq2 : (if ex = true ∨ (chords.map Chord.length).sum = tl then
            ((Except.ok ss : Except String (List TrackSegment)), g3)
          else (Except.error "ConsistencyError: accumulated track length mismatch", g3)) =
            (Except.ok segs, g2) := heq
        rw [if_pos hcond] at heq2
        simp only [Prod.mk.injEq, Except.ok.injEq] at heq2
        have heq := heq2
        have hss : s ∈ ss := by
          rw [heq.1]
          exact hs
        obtain ⟨c, _hcmem, hfc⟩ :=
          segmentizeLoop_mem hash minL maxL chords g ss g3 h2 s hss
        have hfc2 : s.length ∈ splitSegment maxL c.length ∧ minL ≤ s.length := by
          simpa [filterMin, List.mem_filter] using hfc
        obtain ⟨hpos, hle⟩ := splitSegment_mem hmax hfc2.1
        exact ⟨hfc2.2, hpos, hle⟩
      · rw [segmentize2D, h2] at heq
        have heq2 : (if ex = true ∨ (chords.map Chord.length).sum = tl then
            ((Except.ok ss : Except String (List TrackSegment)), g3)
          else (Except.error "ConsistencyError: accumulated track length mismatch", g3)) =
            (Except.ok segs, g2) := heq
        rw [if_neg hcond] at heq2
        simp at heq2

/-- Closed instance of the segment-length bounds: under maximum segment length 2, a
5-long chord is split into sub-segments that sum back to exactly 5. -/
theorem segment_lengths_bounded_demo :
    (splitSegment 2 5).sum = 5 :=
  (segment_lengths_bounded String.length (1 / 2) 2 emptyGeometry 5 [] false
    (by norm_num)).2.1 5 (by norm_num)

/-- C7: for a track whose Navigator walk stays inside the geometry (no exit signal)
and whose chords cover the declared total length, segmentize2D succeeds and the
emitted segment lengths sum to the declared total up to the degenerate-filter deficit,
bounded by the number of discarded sub-segments times the minimum segment length (in
exact arithmetic this is the floating tolerance); when the accumulated chord length
does not reach the declared total and the walk did not end on the exit signal, the
mismatch is a fatal ConsistencyError. -/
theorem segment_sum_matches_track (hash : String → Nat) (minL maxL : ℚ)
    (g : GeometryState) (track_length : ℚ) (chords : List Chord)
    (hmax : 0 < maxL) (hpos : ∀ c ∈ chords, 0 < c.length)
    (hreg : ∀ c ∈ chords, lookupFSRId hash g c.key ≠ none) :
    ((chords.map Chord.length).sum = track_length →
      ∃ segs, segmentize2D hash minL maxL g track_length chords false =
          (Except.ok segs, g) ∧
        (segs.map TrackSegment.length).sum ≤ track_length ∧
        track_length - (segs.map TrackSegment.length).sum ≤
          ((discardedCount minL maxL chords : Nat) : ℚ) * minL) ∧
    ((chords.map Chord.length).sum ≠ track_length →
      (segmentize2D hash minL maxL g track_length chords false).1 =
        Except.error "ConsistencyError: accumulated track length mismatch") := by
  obtain ⟨segs, hloop, hsum⟩ := segmentizeLoop_ok hash minL maxL chords g hreg
  have hbound := chords_sum_bound minL maxL hmax chords hpos
  constructor
  · intro htot
    refine ⟨segs, ?_, ?_, ?_⟩
    · rw [segmentize2D, hloop]
      show (if false = true ∨ (chords.map Chord.length).sum = track_length then
          ((Except.ok segs : Except String (List TrackSegment)), g)
        else (Except.error "ConsistencyError: accumulated track length mismatch", g)) =
          (Except.ok segs, g)
      rw [if_pos (Or.inr htot)]
    · rw [hsum, ← htot]
      exact hbound.1
    · rw [hsum, ← htot]
      exact hbound.2
  · intro hne
    rw [segmentize2D, hloop]
    have hcond : ¬ (false = true ∨ (chords.map Chord.length).sum = track_length) := by
      rintro (h | h)
      · exact absurd h (by simp)
      · exact hne h
    show (if false = true ∨ (chords.map Chord.length).sum = track_length then
        ((Except.ok segs : Except String (List TrackSegment)), g)
      else (Except.error "ConsistencyError: accumulated track length mismatch", g)).1 =
        Except.error "ConsistencyError: accumulated track length mismatch"
    rw [if_neg hcond]

/-- Closed instance of track-length conservation: segmentizing one 5-long chord over a
Registry holding its fingerprint, with declared total 5, succeeds with emitted lengths
summing to 5 up to the discarded-segment bound; with declared total 4 it reports the
length-mismatch ConsistencyError. -/
theorem segment_sum_matches_track_demo :
    (∃ segs, segmentize2D String.length (1 / 2) 2
        (initFlatSourceRegions String.length
          [{ key := "a", material := 1, point := { x := 0, y := 0, z := 0 } }])
        5 [{ key := "a", length := 5 }] false =
        (Except.ok segs,
          initFlatSourceRegions String.length
            [{ key := "a", material := 1, point := { x := 0, y := 0, z := 0 } }]) ∧
      (segs.map TrackSegment.length).sum ≤ 5 ∧
      5 - (segs.map TrackSegment.length).sum ≤
        ((discardedCount (1 / 2) 2 [{ key := "a", length := 5 }] : Nat) : ℚ) * (1 / 2)) ∧
    (segmentize2D String.length (1 / 2) 2
        (initFlatSourceRegions String.length
          [{ key := "a", material := 1, point := { x := 0, y := 0, z := 0 } }])
        4 [{ key := "a", length := 5 }] false).1 =
      Except.error "ConsistencyError: accumulated track length mismatch" := by
  constructor
  · exact (segment_sum_matches_track String.length (1 / 2) 2
      (initFlatSourceRegions String.length
        [{ key := "a", material := 1, point := { x := 0, y := 0, z := 0 } }])
      5 [{ key := "a", length := 5 }]
      (by norm_num) (by norm_num) (by decide)).1 (by norm_num)
  · exact (segment_sum_matches_track String.length (1 / 2) 2
      (initFlatSourceRegions String.length
        [{ key := "a", material := 1, point := { x := 0, y := 0, z := 0 } }])
      4 [{ key := "a", length := 5 }]
      (by norm_num) (by norm_num) (by decide)).2 (by norm_num)

/-- C8: directed location is direction-independent for any point contained in exactly
one leaf region: findFirstCell returns that region's id for every query direction and
every tiny-move step.  Only when the point is not contained in exactly one region (it
lies on a shared boundary) does the direction participate, by classifying the point
after the infinitesimal step along the direction vector — a deterministic function of
the point, the direction and the step, so ownership is direction-consistent. -/
theorem findFirstCell_direction_independent (cells : List CellDef) (p : Point) :
    (∀ d1 d2 e1 e2, (cells.filter (fun c => c.contains p)).length = 1 →
        findFirstCell cells p d1 e1 = findFirstCell cells p d2 e2) ∧
    (∀ d e, (cells.filter (fun c => c.contains p)).length ≠ 1 →
        findFirstCell cells p d e =
          (cells.find? (fun c => c.contains (advancePoint p d e))).map (fun c => c.id)) := by
  constructor
  · intro d1 d2 e1 e2 hone
    obtain ⟨c, hc⟩ := List.length_eq_one.mp hone
    rw [findFirstCell, findFirstCell, hc]
  · intro d e hne
    rw [findFirstCell]
    rcases hf : cells.filter (fun c => c.contains p) with _ | ⟨c, rest⟩
    · rw [hf]
    · rcases rest with _ | ⟨c2, rest2⟩
      · rw [hf] at hne
        simp at hne
      · rw [hf]

/-- Closed instance of direction independence: the point (-1, 0, 0) lies strictly in
the left half-space cell only, and its located cell is the same for the +x and -x
query directions with different tiny-move steps. -/
theorem findFirstCell_direction_independent_demo :
    findFirstCell
      [{ id := 0, contains := fun q => decide (q.x ≤ 0) },
       { id := 1, contains := fun q => decide (0 ≤ q.x) }]
      { x := -1, y := 0, z := 0 } { x := 1, y := 0, z := 0 } 1 =
    findFirstCell
      [{ id := 0, contains := fun q => decide (q.x ≤ 0) },
       { id := 1, contains := fun q => decide (0 ≤ q.x) }]
      { x := -1, y := 0, z := 0 } { x := -1, y := 0, z := 0 } 2 :=
  (findFirstCell_direction_independent
    [{ id := 0, contains := fun q => decide (q.x ≤ 0) },
     { id := 1, contains := fun q => decide (0 ≤ q.x) }]
    { x := -1, y := 0, z := 0 }).1
    { x := 1, y := 0, z := 0 } { x := -1, y := 0, z := 0 } 1 2 (by decide)

/-- C9: a locate query for a point outside the root region fails with a BoundsError,
whereas advancing past a boundary to a position outside the root bounding box signals
exit (none) rather than failing, leaving the caller to apply the crossed face's
boundary condition: vacuum (boundaryType false) terminates the track, reflective
(boundaryType true) mirrors the direction component normal to the crossed face and
continues. -/
theorem locate_bounds_error_vs_exit_signal (bb : BoundingBox) (cells : List CellDef)
    (p d : Point) (dist : ℚ) :
    (withinBounds bb p = false →
        findCellContainingCoords bb cells p =
          Except.error "BoundsError: point outside the root region") ∧
    (withinBounds bb (advancePoint p d dist) = false →
        findNextCell bb cells p d dist = none) ∧
    (∀ f, applyBoundaryCondition false f d = none) ∧
    (∀ f, applyBoundaryCondition true f d = some (reflectDirection f d)) ∧
    ((reflectDirection Face.xMax d).x = -d.x ∧ (reflectDirection Face.xMax d).y = d.y ∧
      (reflectDirection Face.xMax d).z = d.z) ∧
    ((reflectDirection Face.yMax d).y = -d.y ∧ (reflectDirection Face.zMax d).z = -d.z) := by
  refine ⟨?_, ?_, fun f => rfl, fun f => rfl, ⟨rfl, rfl, rfl⟩, ⟨rfl, rfl⟩⟩
  · intro h
    rw [findCellContainingCoords, h]
    simp
  · intro h
    rw [findNextCell, h]
    simp

/-- Closed instance of the bounds/exit behaviour: with a unit root box, the locate
query at (2, 0, 0) fails with the BoundsError, advancing from there by 1 along +x
signals exit (none), a vacuum face terminates and a reflective face mirrors. -/
theorem locate_bounds_error_vs_exit_signal_demo :
    findCellContainingCoords
      { min_x := 0, max_x := 1, min_y := 0, max_y := 1, min_z := 0, max_z := 1 } []
      { x := 2, y := 0, z := 0 } =
      Except.error "BoundsError: point outside the root region" ∧
    findNextCell
      { min_x := 0, max_x := 1, min_y := 0, max_y := 1, min_z := 0, max_z := 1 } []
      { x := 2, y := 0, z := 0 } { x := 1, y := 0, z := 0 } 1 = none ∧
    applyBoundaryCondition false Face.xMax { x := 1, y := 0, z := 0 } = none ∧
    applyBoundaryCondition true Face.xMax { x := 1, y := 0, z := 0 } =
      some (reflectDirection Face.xMax { x := 1, y := 0, z := 0 }) := by
  have h := locate_bounds_error_vs_exit_signal
    { min_x := 0, max_x := 1, min_y := 0, max_y := 1, min_z := 0, max_z := 1 } []
    { x := 2, y := 0, z := 0 } { x := 1, y := 0, z := 0 } 1
  refine ⟨h.1 (by decide), h.2.1 ?_, h.2.2.1 Face.xMax, h.2.2.2.1 Face.xMax⟩
  norm_num [withinBounds, advancePoint]
